import Mathlib

/-!
Shallow embedding of `Source/DataSources/PropertyBag.js` (Cesium).

The file under verification defines `PropertyBag`, a composite Property whose
value is a key-value mapping of property names to the computed values of other
properties.  The bag keeps an ordered list `_propertyNames` of registered
names, and for each name an accessor slot holding either `undefined`, a raw
(non-Property) value, or a Property object.

External collaborators (`defined`, `defaultValue`, `createPropertyDescriptor`,
`Property.isConstant`, `Property.equals`, `Property.getValueOrUndefined`,
`Event`) are not part of the given source tree; where their behaviour decides
a statement they are modelled from the specification and marked as such in
their doc comments.

JavaScript object identity is modelled by an `oid : Nat` field: a member's
`merge` method mutates the object in place (it can never re-seat the bag's
slot reference), so member-local merge is modelled as an update of the
object's internal `data` field that preserves `oid` and the capability flags.
Times and member payload values are modelled as `Nat`.
-/

set_option autoImplicit false

namespace PropertyBagSpec

/-- The error taxonomy of the source: every failure is a `DeveloperError`
thrown synchronously; the three kinds are distinguished by their messages
(`InvalidArgument` = missing required parameter, `DuplicateName` = register
on an existing name, `UnknownName` = unregister of an absent name). -/
inductive DevErr where
  | invalidArgument (msg : String)
  | duplicateName (name : String)
  | unknownName (name : String)
deriving DecidableEq, Repr

/-- Modelled from the spec: the evaluation behaviour of a member Property
(`evaluate(time) -> value|undefined`).  `constV v` evaluates to `v` at every
instant (a constant-like member); `timeV` evaluates to the instant itself (a
concrete time-varying member). -/
inductive EvalSpec where
  | constV (v : Option Nat)
  | timeV
deriving DecidableEq, Repr

/-- Evaluate an `EvalSpec` at an instant. -/
def EvalSpec.evalAt : EvalSpec → Nat → Option Nat
  | EvalSpec.constV v, _ => v
  | EvalSpec.timeV, t => some t

/-- Modelled from the spec: an object satisfying the Property capability set.
`oid` is the JavaScript object identity; `hasMerge` / `hasClone` record
whether the optional `merge` / `clone` methods are defined on the object;
`isConst` is the `isConstant` flag; `evalSpec` the `getValue` behaviour;
`data` the private state that the object's own in-place `merge` mutates. -/
structure PropObj where
  oid : Nat
  hasMerge : Bool
  hasClone : Bool
  isConst : Bool
  evalSpec : EvalSpec
  data : Nat
deriving DecidableEq, Repr

/-- A JavaScript value as it can sit in a bag slot or on a merge source:
`undefined`, a raw non-Property value, or a Property object. -/
inductive JsVal where
  | undef
  | raw (v : Nat)
  | prop (p : PropObj)
deriving DecidableEq, Repr

/-- `defined(v.merge)` of the source: only a Property with `hasMerge` has a
defined `merge` method (`(rawValue).merge` is `undefined` in JavaScript). -/
def JsVal.hasMergeB : JsVal → Bool
  | JsVal.prop p => p.hasMerge
  | _ => false

/-- `defined(v.clone)` of the source. -/
def JsVal.hasCloneB : JsVal → Bool
  | JsVal.prop p => p.hasClone
  | _ => false

/-- The wrapping callback installed on a slot (`createPropertyCallback`).
The source's default is `createRawProperty`, which stores the raw value
as-is. -/
inductive Factory where
  | rawProperty
deriving DecidableEq, Repr

/-- Apply a slot's wrapping callback to a raw (non-Property) value.
`createRawProperty` is the identity: the raw value is stored unwrapped. -/
def Factory.wrap : Factory → Nat → JsVal
  | Factory.rawProperty, v => JsVal.raw v

/-- The `PropertyBag` state: `oid` is the JavaScript object identity;
`propertyNames` is `_propertyNames` (registration order); `slots` holds the
backing value of each accessor slot (absent = `undefined`); `factories`
records the wrapping callback fixed for each slot at registration time. -/
structure PropertyBag where
  oid : Nat
  propertyNames : List String
  slots : List (String × JsVal)
  factories : List (String × Factory)
deriving Repr

/-- A freshly constructed empty bag (`new PropertyBag()` with no value). -/
def PropertyBag.init (oid : Nat) : PropertyBag :=
  { oid := oid, propertyNames := [], slots := [], factories := [] }

/-- First-match association-list lookup (JavaScript property read). -/
def assocLookup {α : Type} : List (String × α) → String → Option α
  | [], _ => none
  | (k, v) :: rest, key => if k = key then some v else assocLookup rest key

/-- Association-list update: overwrite the first entry with the key, or
append a new entry. -/
def assocSet {α : Type} : List (String × α) → String → α → List (String × α)
  | [], key, v => [(key, v)]
  | (k, w) :: rest, key, v =>
      if k = key then (key, v) :: rest else (k, w) :: assocSet rest key v

/-- Association-list deletion of the entry with the key. -/
def assocErase {α : Type} : List (String × α) → String → List (String × α)
  | [], _ => []
  | (k, w) :: rest, key =>
      if k = key then rest else (k, w) :: assocErase rest key

/-- `this[name]`: the accessor read of a slot; an uninstalled or unassigned
slot reads as `undefined`. -/
def lookupMember (bag : PropertyBag) (name : String) : JsVal :=
  (assocLookup bag.slots name).getD JsVal.undef

/-- The accessor slot setter (`createPropertyDescriptor`), modelled from the
spec: a value that does not already satisfy the Property capability set is
wrapped with the slot's registered callback (default `createRawProperty`,
the identity) before being stored; a Property is stored as-is.  Subscription
rewiring has no observable effect on any statement below and is omitted. -/
def setMember (bag : PropertyBag) (name : String) (v : JsVal) : PropertyBag :=
  let f := (assocLookup bag.factories name).getD Factory.rawProperty
  let stored := match v with
    | JsVal.raw n => f.wrap n
    | w => w
  { bag with slots := assocSet bag.slots name stored }

/-- `PropertyBag.prototype.hasProperty`: membership test against
`_propertyNames`. -/
def PropertyBag.hasProperty (bag : PropertyBag) (name : String) : Bool :=
  bag.propertyNames.contains name

/-- The registration part of `addProperty`: push the name onto
`_propertyNames` and install the accessor slot with its wrapping callback
(`defaultValue(createPropertyCallback, createRawProperty)`). -/
def installSlot (bag : PropertyBag) (name : String) (f : Option Factory) :
    PropertyBag :=
  { bag with
    propertyNames := bag.propertyNames ++ [name],
    factories := assocSet bag.factories name (f.getD Factory.rawProperty) }

/-- The mutation performed by a successful `addProperty(name, value,
callback)`: register the slot and, if the value is defined, assign it
through the slot. -/
def addPropertyCore (bag : PropertyBag) (name : String) (v : JsVal)
    (f : Option Factory) : PropertyBag :=
  if v = JsVal.undef then installSlot bag name f
  else setMember (installSlot bag name f) name v

/-- `PropertyBag.prototype.addProperty`.  The name argument is `Option`
because the source guards against a missing (`undefined`) name.  Throwing is
modelled by `Except.error`; the thrown-before-mutating structure of the
source means a failing call leaves the bag untouched. -/
def PropertyBag.addProperty (bag : PropertyBag) (name : Option String)
    (v : JsVal) (f : Option Factory) : Except DevErr PropertyBag :=
  match name with
  | none => Except.error (DevErr.invalidArgument "propertyName is required.")
  | some n =>
      if bag.propertyNames.contains n then
        Except.error (DevErr.duplicateName n)
      else
        Except.ok (addPropertyCore bag n v f)

/-- `PropertyBag.prototype.removeProperty`: splice the name out of
`_propertyNames` and delete the slot; failures mirror the source's guards. -/
def PropertyBag.removeProperty (bag : PropertyBag) (name : Option String) :
    Except DevErr PropertyBag :=
  match name with
  | none => Except.error (DevErr.invalidArgument "propertyName is required.")
  | some n =>
      if bag.propertyNames.contains n then
        Except.ok
          { bag with
            propertyNames := bag.propertyNames.erase n,
            slots := assocErase bag.slots n,
            factories := assocErase bag.factories n }
      else
        Except.error (DevErr.unknownName n)

/-- Modelled from the spec: `Property.getValueOrUndefined(property, time)` —
an undefined slot evaluates to `undefined`; a raw value is a constant-like
passthrough evaluating to itself; a Property evaluates via its `getValue`. -/
def propGetValueOrUndefined : JsVal → Nat → Option Nat
  | JsVal.undef, _ => none
  | JsVal.raw v, _ => some v
  | JsVal.prop p, t => p.evalSpec.evalAt t

/-- The result-building loop of `getValue`: one output entry per registered
name, in registration order. -/
def getValueLoop (bag : PropertyBag) (t : Nat) :
    List String → List (String × Option Nat)
  | [] => []
  | n :: rest =>
      (n, propGetValueOrUndefined (lookupMember bag n) t) :: getValueLoop bag t rest

/-- `PropertyBag.prototype.getValue`: requires a time, then returns a fresh
mapping assigning every registered name its member's evaluation. -/
def PropertyBag.getValue (bag : PropertyBag) (time : Option Nat) :
    Except DevErr (List (String × Option Nat)) :=
  match time with
  | none => Except.error (DevErr.invalidArgument "time is required.")
  | some t => Except.ok (getValueLoop bag t bag.propertyNames)

/-- Modelled from the spec: `Property.isConstant(property)` — an absent or
unset member does not make the bag non-constant; a raw value is a
constant-like passthrough; a Property reports its own flag. -/
def propIsConstant : JsVal → Bool
  | JsVal.undef => true
  | JsVal.raw _ => true
  | JsVal.prop p => p.isConst

/-- The loop of the `isConstant` getter, with its early `false` return. -/
def isConstantLoop (bag : PropertyBag) : List String → Bool
  | [] => true
  | n :: rest =>
      if propIsConstant (lookupMember bag n) then isConstantLoop bag rest
      else false

/-- The `isConstant` getter: the bag is constant iff no registered member
reports non-constant. -/
def PropertyBag.isConstant (bag : PropertyBag) : Bool :=
  isConstantLoop bag bag.propertyNames

/-- A merge source: either another `PropertyBag` (the source exposes
`_propertyNames`) or a plain object, whose keys are enumerated by
`Object.keys` in insertion order. -/
inductive MergeSource where
  | bag (b : PropertyBag)
  | plain (kvs : List (String × JsVal))

/-- `sourcePropertyNames` of `merge`: the source bag's `_propertyNames`, or
`Object.keys(source)` for a plain object. -/
def sourceNames : MergeSource → List String
  | MergeSource.bag b => b.propertyNames
  | MergeSource.plain kvs => kvs.map Prod.fst

/-- `source[name]`: the slot read on a source bag, or the key read on a
plain object (`undefined` when absent). -/
def sourceLookup : MergeSource → String → JsVal
  | MergeSource.bag b, name => lookupMember b name
  | MergeSource.plain kvs, name => (assocLookup kvs name).getD JsVal.undef

/-- `targetProperty.merge(sourceProperty)`: the member's own in-place merge.
The method mutates the receiver's private state (`mdata` gives the new
internal data, supplied as a parameter because the member's merge algorithm
is outside this component); a method call can never re-seat the bag's slot
reference, so `oid` and the capability flags are untouched. -/
def applyMemberMerge (mdata : Nat → JsVal → Nat) (p : PropObj)
    (src : JsVal) : PropObj :=
  { p with data := mdata p.data src }

/-- `sourceProperty.clone()`: the member's own clone (external capability,
supplied as a parameter `mclone`). -/
def cloneVal (mclone : PropObj → PropObj) : JsVal → JsVal
  | JsVal.prop p => JsVal.prop (mclone p)
  | v => v

/-- One iteration of the `merge` loop body for a single source name,
translated line by line:
auto-register a name the bag knows nothing about; then, for a defined source
value: a defined target with a `merge` method merges in place (the slot is
not reassigned — only the object's internal state changes); with no defined
target, a source value having both `merge` and `clone` is cloned into the
slot, and otherwise the raw source value is assigned through the slot.
A defined target without a `merge` method falls through the inner `if`
with no `else`: nothing happens. -/
def mergeStep (mdata : Nat → JsVal → Nat) (mclone : PropObj → PropObj)
    (f : Option Factory) (src : MergeSource)
    (bag : PropertyBag) (name : String) : PropertyBag :=
  let targetProperty := lookupMember bag name
  let sourceProperty := sourceLookup src name
  let bag1 :=
    if targetProperty = JsVal.undef ∧ bag.propertyNames.contains name = false then
      addPropertyCore bag name JsVal.undef f
    else bag
  if sourceProperty = JsVal.undef then bag1
  else
    if targetProperty = JsVal.undef then
      if sourceProperty.hasMergeB ∧ sourceProperty.hasCloneB then
        setMember bag1 name (cloneVal mclone sourceProperty)
      else
        setMember bag1 name sourceProperty
    else
      match targetProperty with
      | JsVal.prop p =>
          if p.hasMerge then
            { bag1 with
              slots := assocSet bag1.slots name
                (JsVal.prop (applyMemberMerge mdata p sourceProperty)) }
          else bag1
      | _ => bag1

/-- `PropertyBag.prototype.merge`: iterate the loop body over the source's
names (the source name list is read once, before the loop). -/
def PropertyBag.merge (mdata : Nat → JsVal → Nat) (mclone : PropObj → PropObj)
    (f : Option Factory) (bag : PropertyBag) (src : MergeSource) : PropertyBag :=
  (sourceNames src).foldl (mergeStep mdata mclone f src) bag

/-- Modelled from the spec: the Property capability set's equality contract
(`Property.equals`): `undefined` equals `undefined`; a defined value equals
another iff they are the same value (a Property is never equal to
`undefined`). -/
def propEquals (a b : JsVal) : Bool :=
  a = b

/-- The comparison loop of `propertiesEqual`, with its early `false`
returns: each of `a`'s names must be registered on `b` and hold an equal
value. -/
def propertiesEqualLoop (a b : PropertyBag) : List String → Bool
  | [] => true
  | name :: rest =>
      if b.propertyNames.contains name = false then false
      else if propEquals (lookupMember a name) (lookupMember b name) = false then false
      else propertiesEqualLoop a b rest

/-- `propertiesEqual(a, b)` of the source: equal name counts, and every name
of `a` is on `b` with an equal held value. -/
def propertiesEqual (a b : PropertyBag) : Bool :=
  if a.propertyNames.length ≠ b.propertyNames.length then false
  else propertiesEqualLoop a b a.propertyNames

/-- The argument of `equals`: anything a caller can pass — `undefined`,
`null`, a non-bag value, or a `PropertyBag` (the only case passing the
`instanceof PropertyBag` test). -/
inductive EqualsArg where
  | undef
  | nullv
  | nonBag (v : JsVal)
  | bag (b : PropertyBag)

/-- `PropertyBag.prototype.equals`: reference identity (`this === other`,
modelled by `oid` equality), or `other instanceof PropertyBag` together with
`propertiesEqual`. -/
def PropertyBag.equals (this : PropertyBag) : EqualsArg → Bool
  | EqualsArg.bag b => this.oid = b.oid || propertiesEqual this b
  | _ => false

/-- An observable step of `addProperty`, recording the bag state at the
moment the step completes: `registered` after the name is appended and the
slot installed, `assignedInitial` after the provided initial value is
assigned through the slot, `raisedChange` when
`_definitionChanged.raiseEvent(this)` fires (the `Event` collaborator is
modelled from the spec as a synchronous multicast raise). -/
inductive RegStep where
  | registered (b : PropertyBag)
  | assignedInitial (b : PropertyBag)
  | raisedChange (b : PropertyBag)

/-- The number of change notifications a step sequence raises. -/
def countRaises : List RegStep → Nat
  | [] => 0
  | RegStep.raisedChange _ :: rest => countRaises rest + 1
  | _ :: rest => countRaises rest

/-- `addProperty` instrumented with its step trace, in source order: append
the name and install the slot, assign the initial value if defined, then
raise the bag's change notification once. -/
def addPropertyTrace (bag : PropertyBag) (name : Option String) (v : JsVal)
    (f : Option Factory) : Except DevErr (PropertyBag × List RegStep) :=
  match name with
  | none => Except.error (DevErr.invalidArgument "propertyName is required.")
  | some n =>
      if bag.propertyNames.contains n then
        Except.error (DevErr.duplicateName n)
      else
        let bag1 := installSlot bag n f
        if v = JsVal.undef then
          Except.ok (bag1, [RegStep.registered bag1, RegStep.raisedChange bag1])
        else
          let bag2 := setMember bag1 n v
          Except.ok (bag2,
            [RegStep.registered bag1, RegStep.assignedInitial bag2,
             RegStep.raisedChange bag2])

/-! ### Association-list lemmas -/

theorem assocLookup_assocSet_self {α : Type} (l : List (String × α)) (k : String)
    (v : α) : assocLookup (assocSet l k v) k = some v := by
  induction l with
  | nil => simp [assocLookup, assocSet]
  | cons hd tl ih =>
      obtain ⟨k', v'⟩ := hd
      by_cases h : k' = k <;> simp [assocLookup, assocSet, h, ih]

theorem assocLookup_assocSet_ne {α : Type} (l : List (String × α)) (k k' : String)
    (v : α) (h : k ≠ k') :
    assocLookup (assocSet l k v) k' = assocLookup l k' := by
  induction l with
  | nil => simp [assocLookup, assocSet, h]
  | cons hd tl ih =>
      obtain ⟨k0, v0⟩ := hd
      by_cases h0 : k0 = k <;> simp [assocLookup, assocSet, h0, h, ih]

/-! ### Slot-access lemmas -/

theorem lookupMember_slots_eq {a b : PropertyBag} (h : a.slots = b.slots)
    (name : String) : lookupMember a name = lookupMember b name := by
  simp [lookupMember, h]

theorem addPropertyCore_undef_slots (bag : PropertyBag) (n : String)
    (f : Option Factory) : (addPropertyCore bag n JsVal.undef f).slots = bag.slots := by
  simp [addPropertyCore, installSlot]

theorem Factory.wrap_eq (f : Factory) (m : Nat) : f.wrap m = JsVal.raw m := by
  cases f; rfl

theorem setMember_lookup_self (bag : PropertyBag) (n : String) (v : JsVal) :
    lookupMember (setMember bag n v) n = v := by
  cases v <;>
    simp [setMember, lookupMember, assocLookup_assocSet_self, Factory.wrap_eq]

theorem setMember_lookup_ne (bag : PropertyBag) (n : String) (v : JsVal)
    (name : String) (h : n ≠ name) :
    lookupMember (setMember bag n v) name = lookupMember bag name := by
  simp [setMember, lookupMember, assocLookup_assocSet_ne _ _ _ _ h]

theorem mergeRegister_lookup (f : Option Factory)
    (bag : PropertyBag) (n name : String) (c : Prop) [Decidable c] :
    lookupMember (if c then addPropertyCore bag n JsVal.undef f else bag) name =
      lookupMember bag name := by
  split
  · exact lookupMember_slots_eq (addPropertyCore_undef_slots bag n f) name
  · rfl

/-! ### Behaviour of one `merge`-loop iteration -/

theorem mergeStep_lookup_ne (mdata : Nat → JsVal → Nat) (mclone : PropObj → PropObj)
    (f : Option Factory) (src : MergeSource) (bag : PropertyBag)
    {n name : String} (h : n ≠ name) :
    lookupMember (mergeStep mdata mclone f src bag n) name = lookupMember bag name := by
  have hreg := mergeRegister_lookup f bag n name
    (lookupMember bag n = JsVal.undef ∧ bag.propertyNames.contains n = false)
  simp only [mergeStep]
  split
  · exact hreg
  · split
    · split
      · rw [setMember_lookup_ne _ _ _ _ h]; exact hreg
      · rw [setMember_lookup_ne _ _ _ _ h]; exact hreg
    · split
      · split
        · refine Eq.trans ?_ hreg
          simp [lookupMember, assocLookup_assocSet_ne _ _ _ _ h]
        · exact hreg
      · exact hreg

theorem mergeStep_delegate (mdata : Nat → JsVal → Nat) (mclone : PropObj → PropObj)
    (f : Option Factory) (src : MergeSource) (bag : PropertyBag) (name : String)
    (p : PropObj) (hp : lookupMember bag name = JsVal.prop p)
    (hm : p.hasMerge = true) :
    lookupMember (mergeStep mdata mclone f src bag name) name =
      JsVal.prop { p with data :=
        (if sourceLookup src name = JsVal.undef then p.data
         else mdata p.data (sourceLookup src name)) } := by
  by_cases hv : sourceLookup src name = JsVal.undef
  · simp [mergeStep, hp, hv]
  · simp only [mergeStep]
    rw [hp, if_neg hv, if_neg (by simp), if_neg (by simp), if_neg hv]
    simp only [hm, ite_true]
    simp [hm, lookupMember, assocLookup_assocSet_self, applyMemberMerge]

theorem mergeStep_skip_noMerge (mdata : Nat → JsVal → Nat) (mclone : PropObj → PropObj)
    (f : Option Factory) (src : MergeSource) (bag : PropertyBag) (name : String)
    (q : JsVal) (hq : lookupMember bag name = q) (hdef : q ≠ JsVal.undef)
    (hnm : q.hasMergeB = false) :
    lookupMember (mergeStep mdata mclone f src bag name) name = q := by
  match q, hdef, hnm with
  | JsVal.raw v, _, _ => simp [mergeStep, hq]
  | JsVal.prop p, _, hnm =>
      simp only [JsVal.hasMergeB] at hnm
      simp [mergeStep, hq, hnm]

theorem mergeStep_assign (mdata : Nat → JsVal → Nat) (mclone : PropObj → PropObj)
    (f : Option Factory) (src : MergeSource) (bag : PropertyBag) (name : String)
    (hu : lookupMember bag name = JsVal.undef)
    (hv : sourceLookup src name ≠ JsVal.undef)
    (hc : ¬((sourceLookup src name).hasMergeB = true ∧
            (sourceLookup src name).hasCloneB = true)) :
    lookupMember (mergeStep mdata mclone f src bag name) name =
      sourceLookup src name := by
  simp only [mergeStep, hu, hv, hc, if_true, ite_false, ite_true, if_false]
  exact setMember_lookup_self _ _ _

theorem mergeStep_src_undef (mdata : Nat → JsVal → Nat) (mclone : PropObj → PropObj)
    (f : Option Factory) (src : MergeSource) (bag : PropertyBag) (name : String)
    (hv : sourceLookup src name = JsVal.undef) :
    lookupMember (mergeStep mdata mclone f src bag name) name =
      lookupMember bag name := by
  simp only [mergeStep]
  rw [if_pos hv]
  exact mergeRegister_lookup f bag name name _

/-! ### Behaviour of the whole `merge` loop -/

theorem mergeFold_not_mem (mdata : Nat → JsVal → Nat) (mclone : PropObj → PropObj)
    (f : Option Factory) (src : MergeSource) (l : List String) (bag : PropertyBag)
    (name : String) (h : name ∉ l) :
    lookupMember (l.foldl (mergeStep mdata mclone f src) bag) name =
      lookupMember bag name := by
  induction l generalizing bag with
  | nil => rfl
  | cons a tl ih =>
      have h1 : name ≠ a := fun he => h (he ▸ List.mem_cons_self a tl)
      have h2 : name ∉ tl := fun ht => h (List.mem_cons_of_mem a ht)
      rw [List.foldl_cons, ih _ h2, mergeStep_lookup_ne _ _ _ _ _ (Ne.symm h1)]

theorem mergeFold_mergeable (mdata : Nat → JsVal → Nat) (mclone : PropObj → PropObj)
    (f : Option Factory) (src : MergeSource) (l : List String) (hnd : l.Nodup)
    (bag : PropertyBag) (name : String) (p : PropObj)
    (hp : lookupMember bag name = JsVal.prop p) (hm : p.hasMerge = true) :
    lookupMember (l.foldl (mergeStep mdata mclone f src) bag) name =
      JsVal.prop { p with data :=
        (if name ∈ l ∧ sourceLookup src name ≠ JsVal.undef
         then mdata p.data (sourceLookup src name) else p.data) } := by
  induction l generalizing bag p with
  | nil =>
      rw [List.foldl_nil, if_neg (by simp)]
      exact hp
  | cons a tl ih =>
      rw [List.foldl_cons]
      by_cases han : a = name
      · subst han
        have hntl : a ∉ tl := (List.nodup_cons.mp hnd).1
        rw [mergeFold_not_mem _ _ _ _ _ _ _ hntl,
          mergeStep_delegate _ _ _ _ _ _ _ hp hm]
        by_cases hv : sourceLookup src a = JsVal.undef
        · rw [if_pos hv, if_neg (by simp [hv])]
        · rw [if_neg hv, if_pos ⟨List.mem_cons_self a tl, hv⟩]
      · have hp' : lookupMember (mergeStep mdata mclone f src bag a) name =
            JsVal.prop p := by
          rw [mergeStep_lookup_ne _ _ _ _ _ han]; exact hp
        rw [ih (List.nodup_cons.mp hnd).2 _ _ hp' hm]
        have hna : name ≠ a := fun he => han he.symm
        have hcond : (name ∈ tl ∧ sourceLookup src name ≠ JsVal.undef) ↔
            (name ∈ a :: tl ∧ sourceLookup src name ≠ JsVal.undef) := by
          simp [List.mem_cons, hna]
        rw [if_congr hcond rfl rfl]

theorem mergeFold_fill (mdata : Nat → JsVal → Nat) (mclone : PropObj → PropObj)
    (f : Option Factory) (src : MergeSource) (l : List String) (hnd : l.Nodup)
    (bag : PropertyBag) (name : String) (hmem : name ∈ l)
    (hu : lookupMember bag name = JsVal.undef)
    (hv : sourceLookup src name ≠ JsVal.undef)
    (hc : ¬((sourceLookup src name).hasMergeB = true ∧
            (sourceLookup src name).hasCloneB = true)) :
    lookupMember (l.foldl (mergeStep mdata mclone f src) bag) name =
      sourceLookup src name := by
  induction l generalizing bag with
  | nil => cases hmem
  | cons a tl ih =>
      rw [List.foldl_cons]
      by_cases han : a = name
      · subst han
        have hntl : a ∉ tl := (List.nodup_cons.mp hnd).1
        rw [mergeFold_not_mem _ _ _ _ _ _ _ hntl,
          mergeStep_assign _ _ _ _ _ _ hu hv hc]
      · have hmem' : name ∈ tl := by
          rcases List.mem_cons.mp hmem with h | h
          · exact absurd h.symm han
          · exact h
        have hu' : lookupMember (mergeStep mdata mclone f src bag a) name =
            JsVal.undef := by
          rw [mergeStep_lookup_ne _ _ _ _ _ han]; exact hu
        exact ih (List.nodup_cons.mp hnd).2 _ hmem' hu'

theorem mergeFold_keep_nonmergeable (mdata : Nat → JsVal → Nat)
    (mclone : PropObj → PropObj) (f : Option Factory) (src : MergeSource)
    (l : List String) (bag : PropertyBag) (name : String) (q : JsVal)
    (hq : lookupMember bag name = q) (hdef : q ≠ JsVal.undef)
    (hnm : q.hasMergeB = false) :
    lookupMember (l.foldl (mergeStep mdata mclone f src) bag) name = q := by
  induction l generalizing bag with
  | nil => exact hq
  | cons a tl ih =>
      rw [List.foldl_cons]
      by_cases han : a = name
      · subst han
        exact ih _ (mergeStep_skip_noMerge _ _ _ _ _ _ _ hq hdef hnm)
      · refine ih _ ?_
        rw [mergeStep_lookup_ne _ _ _ _ _ han]; exact hq

theorem mergeFold_src_undef (mdata : Nat → JsVal → Nat) (mclone : PropObj → PropObj)
    (f : Option Factory) (src : MergeSource) (l : List String) (bag : PropertyBag)
    (name : String) (hv : sourceLookup src name = JsVal.undef) :
    lookupMember (l.foldl (mergeStep mdata mclone f src) bag) name =
      lookupMember bag name := by
  induction l generalizing bag with
  | nil => rfl
  | cons a tl ih =>
      rw [List.foldl_cons, ih _]
      by_cases han : a = name
      · subst han
        exact mergeStep_src_undef _ _ _ _ _ _ hv
      · exact mergeStep_lookup_ne _ _ _ _ _ han

/-! ### Claim theorems -/

/-- C1: for every bag and every merge source, if the bag already holds a
defined value under a name and that value supports a `merge` operation, then
`merge(source)` delegates to `existing.merge(sourceValue)` for that name and
never replaces the value held in the slot: after the merge the slot holds
the same member object (same identity `oid` and capabilities; only the
internal state that the member's own in-place merge mutates changes, and it
changes exactly by the delegated `existing.merge(sourceValue)` when the
source supplies a defined value for the name). -/
theorem merge_delegates_and_preserves_slot (mdata : Nat → JsVal → Nat)
    (mclone : PropObj → PropObj) (f : Option Factory) (bag : PropertyBag)
    (src : MergeSource) (name : String) (p : PropObj)
    (hnd : (sourceNames src).Nodup)
    (hp : lookupMember bag name = JsVal.prop p) (hm : p.hasMerge = true) :
    lookupMember (PropertyBag.merge mdata mclone f bag src) name =
      JsVal.prop { p with data :=
        (if name ∈ sourceNames src ∧ sourceLookup src name ≠ JsVal.undef
         then mdata p.data (sourceLookup src name) else p.data) } :=
  mergeFold_mergeable mdata mclone f src (sourceNames src) hnd bag name p hp hm

/-- Witness for C1: a bag holding a mergeable member (identity 5, internal
data 10) merged with a source supplying a raw value for the same name keeps
the same member object in the slot, with only its internal data updated by
the delegated member-local merge. -/
theorem merge_delegates_and_preserves_slot_witness :
    lookupMember
      (PropertyBag.merge (fun d _ => d + 1) id none
        (addPropertyCore (PropertyBag.init 0) "p"
          (JsVal.prop ⟨5, true, false, true, EvalSpec.constV (some 3), 10⟩) none)
        (MergeSource.plain [("p", JsVal.raw 9)])) "p" =
      JsVal.prop ⟨5, true, false, true, EvalSpec.constV (some 3), 11⟩ := by
  have h := merge_delegates_and_preserves_slot (fun d _ => d + 1) id none
    (addPropertyCore (PropertyBag.init 0) "p"
      (JsVal.prop ⟨5, true, false, true, EvalSpec.constV (some 3), 10⟩) none)
    (MergeSource.plain [("p", JsVal.raw 9)]) "p"
    ⟨5, true, false, true, EvalSpec.constV (some 3), 10⟩
    (by decide) rfl rfl
  rw [h]
  rfl

/-- C2 counterexample: the claim asserts that when the target slot already
holds a defined value lacking a `merge` operation, the raw source value is
assigned directly into the slot.  On the code this is false: the inner
`if (defined(targetProperty.merge))` has no `else`, so a defined,
non-mergeable target is left untouched.  Concretely: a bag holding the raw
value 1 under "a" (raw values have no `merge`), merged with a source
supplying 2 for "a", still holds 1 — not the claimed 2. -/
theorem merge_defined_nonmergeable_target_counterexample :
    lookupMember (addPropertyCore (PropertyBag.init 0) "a" (JsVal.raw 1) none) "a" =
        JsVal.raw 1 ∧
    (JsVal.raw 1).hasMergeB = false ∧
    sourceLookup (MergeSource.plain [("a", JsVal.raw 2)]) "a" = JsVal.raw 2 ∧
    lookupMember
      (PropertyBag.merge (fun d _ => d) id none
        (addPropertyCore (PropertyBag.init 0) "a" (JsVal.raw 1) none)
        (MergeSource.plain [("a", JsVal.raw 2)])) "a" = JsVal.raw 1 ∧
    JsVal.raw 1 ≠ JsVal.raw 2 :=
  ⟨rfl, rfl, rfl, rfl, by decide⟩

/-- C2 (amended): for every name processed by `merge(source)` where the
source value is defined and neither the recursive-merge case nor the clone
case applies, the raw source value is assigned directly into the slot only
when the target slot is undefined; when the target slot already holds a
defined value that lacks a `merge` operation, `merge` leaves the slot
unchanged (the value is not overwritten). -/
theorem merge_assigns_raw_only_into_empty_slot (mdata : Nat → JsVal → Nat)
    (mclone : PropObj → PropObj) (f : Option Factory) (bag : PropertyBag)
    (src : MergeSource) (name : String) :
    ((sourceNames src).Nodup → name ∈ sourceNames src →
      sourceLookup src name ≠ JsVal.undef →
      lookupMember bag name = JsVal.undef →
      ¬((sourceLookup src name).hasMergeB = true ∧
        (sourceLookup src name).hasCloneB = true) →
      lookupMember (PropertyBag.merge mdata mclone f bag src) name =
        sourceLookup src name) ∧
    (∀ q : JsVal, lookupMember bag name = q → q ≠ JsVal.undef →
      q.hasMergeB = false →
      lookupMember (PropertyBag.merge mdata mclone f bag src) name = q) :=
  ⟨fun hnd hmem hv hu hc =>
      mergeFold_fill mdata mclone f src (sourceNames src) hnd bag name hmem hu hv hc,
   fun q hq hdef hnm =>
      mergeFold_keep_nonmergeable mdata mclone f src (sourceNames src) bag name q
        hq hdef hnm⟩

/-- Witness for the amended C2: merging raw 7 for a registered-but-unset
name assigns 7 into the slot; merging raw 2 over an existing raw 1 (a
defined, non-mergeable target) leaves 1 in place. -/
theorem merge_assigns_raw_only_into_empty_slot_witness :
    lookupMember
      (PropertyBag.merge (fun d _ => d) id none
        (addPropertyCore (PropertyBag.init 0) "a" JsVal.undef none)
        (MergeSource.plain [("a", JsVal.raw 7)])) "a" = JsVal.raw 7 ∧
    lookupMember
      (PropertyBag.merge (fun d _ => d) id none
        (addPropertyCore (PropertyBag.init 0) "a" (JsVal.raw 1) none)
        (MergeSource.plain [("a", JsVal.raw 2)])) "a" = JsVal.raw 1 := by
  constructor
  · exact (merge_assigns_raw_only_into_empty_slot (fun d _ => d) id none
      (addPropertyCore (PropertyBag.init 0) "a" JsVal.undef none)
      (MergeSource.plain [("a", JsVal.raw 7)]) "a").1
      (by decide) (by decide) (by decide) rfl (by decide)
  · exact (merge_assigns_raw_only_into_empty_slot (fun d _ => d) id none
      (addPropertyCore (PropertyBag.init 0) "a" (JsVal.raw 1) none)
      (MergeSource.plain [("a", JsVal.raw 2)]) "a").2
      (JsVal.raw 1) rfl (by decide) rfl

/-- C3: for every bag, merge source and name whose value on the source is
undefined, `merge(source)` leaves the bag's value under that name unchanged:
the skip is a value-level no-op, never a clear. -/
theorem merge_skips_undefined_source_values (mdata : Nat → JsVal → Nat)
    (mclone : PropObj → PropObj) (f : Option Factory) (bag : PropertyBag)
    (src : MergeSource) (name : String)
    (hv : sourceLookup src name = JsVal.undef) :
    lookupMember (PropertyBag.merge mdata mclone f bag src) name =
      lookupMember bag name :=
  mergeFold_src_undef mdata mclone f src (sourceNames src) bag name hv

/-- Witness for C3: a bag holding raw 4 under "a", merged with a source that
has no value for "a", still holds raw 4. -/
theorem merge_skips_undefined_source_values_witness :
    lookupMember
      (PropertyBag.merge (fun d _ => d) id none
        (addPropertyCore (PropertyBag.init 0) "a" (JsVal.raw 4) none)
        (MergeSource.plain [("b", JsVal.raw 1)])) "a" = JsVal.raw 4 := by
  have h := merge_skips_undefined_source_values (fun d _ => d) id none
    (addPropertyCore (PropertyBag.init 0) "a" (JsVal.raw 4) none)
    (MergeSource.plain [("b", JsVal.raw 1)]) "a" rfl
  rw [h]
  rfl

/-- C4: `addProperty` with a missing name always fails with
`InvalidArgument` ("propertyName is required."); `addProperty` with an
already-registered name always fails with `DuplicateName`; `removeProperty`
with a missing name fails with `InvalidArgument` and with an unregistered
name always fails with `UnknownName`.  Each failure returns an error and no
new bag state — the source throws before any mutation, so the bag is
unchanged and nothing is silently overwritten. -/
theorem register_unregister_errors (bag : PropertyBag) (n : String) (v : JsVal)
    (f : Option Factory) :
    (PropertyBag.addProperty bag none v f =
        Except.error (DevErr.invalidArgument "propertyName is required.")) ∧
    (bag.propertyNames.contains n = true →
      PropertyBag.addProperty bag (some n) v f =
        Except.error (DevErr.duplicateName n)) ∧
    (PropertyBag.removeProperty bag none =
        Except.error (DevErr.invalidArgument "propertyName is required.")) ∧
    (bag.propertyNames.contains n = false →
      PropertyBag.removeProperty bag (some n) =
        Except.error (DevErr.unknownName n)) := by
  refine ⟨rfl, fun h => ?_, rfl, fun h => ?_⟩
  · have h' : n ∈ bag.propertyNames := by simpa using h
    simp [PropertyBag.addProperty, h']
  · have h' : n ∉ bag.propertyNames := by simpa using h
    simp [PropertyBag.removeProperty, h']

/-- Witness for C4: on a bag with just "a" registered, re-adding "a" fails
with `DuplicateName`, removing "b" fails with `UnknownName`, and adding a
missing name fails with `InvalidArgument`. -/
theorem register_unregister_errors_witness :
    PropertyBag.addProperty
        (addPropertyCore (PropertyBag.init 0) "a" JsVal.undef none)
        (some "a") JsVal.undef none =
      Except.error (DevErr.duplicateName "a") ∧
    PropertyBag.removeProperty
        (addPropertyCore (PropertyBag.init 0) "a" JsVal.undef none)
        (some "b") =
      Except.error (DevErr.unknownName "b") ∧
    PropertyBag.addProperty (PropertyBag.init 0) none JsVal.undef none =
      Except.error (DevErr.invalidArgument "propertyName is required.") :=
  ⟨(register_unregister_errors
      (addPropertyCore (PropertyBag.init 0) "a" JsVal.undef none)
      "a" JsVal.undef none).2.1 (by decide),
   (register_unregister_errors
      (addPropertyCore (PropertyBag.init 0) "a" JsVal.undef none)
      "b" JsVal.undef none).2.2.2 (by decide),
   (register_unregister_errors (PropertyBag.init 0) "x" JsVal.undef none).1⟩

/-- A plain-object read on a mapping of raw values with distinct keys finds
the raw value paired with the key. -/
theorem assocLookup_map_raw (kvs : List (String × Nat)) (k : String) (v : Nat)
    (hnd : (kvs.map Prod.fst).Nodup) (hmem : (k, v) ∈ kvs) :
    assocLookup (kvs.map (fun kv => (kv.1, JsVal.raw kv.2))) k =
      some (JsVal.raw v) := by
  induction kvs with
  | nil => cases hmem
  | cons hd tl ih =>
      obtain ⟨k0, v0⟩ := hd
      simp only [List.map_cons] at hnd ⊢
      obtain ⟨hnotin, hnd2⟩ := List.nodup_cons.mp hnd
      simp only [assocLookup]
      by_cases he : k0 = k
      · subst he
        rw [if_pos rfl]
        rcases List.mem_cons.mp hmem with h | h
        · injection h with h1 h2
          rw [h2]
        · exact absurd (List.mem_map_of_mem Prod.fst h) hnotin
      · rw [if_neg he]
        rcases List.mem_cons.mp hmem with h | h
        · exact absurd (congrArg Prod.fst h).symm he
        · exact ih hnd2 h

/-- One `merge` iteration on a name the bag knows nothing about (no value,
not registered) appends the name to `_propertyNames`, whatever the source
supplies for it. -/
theorem mergeStep_registers (mdata : Nat → JsVal → Nat) (mclone : PropObj → PropObj)
    (f : Option Factory) (src : MergeSource) (bag : PropertyBag) (k : String)
    (hu : lookupMember bag k = JsVal.undef) (hreg : k ∉ bag.propertyNames) :
    (mergeStep mdata mclone f src bag k).propertyNames =
      bag.propertyNames ++ [k] := by
  by_cases hsv : sourceLookup src k = JsVal.undef
  · simp [mergeStep, hu, hreg, hsv, addPropertyCore, installSlot]
  · by_cases hcl : (sourceLookup src k).hasMergeB = true ∧
        (sourceLookup src k).hasCloneB = true
    · simp [mergeStep, hu, hreg, hsv, hcl, addPropertyCore, installSlot, setMember]
    · simp [mergeStep, hu, hreg, hsv, hcl, addPropertyCore, installSlot, setMember]

/-- The `merge` loop over names all unknown to the bag appends them to
`_propertyNames` in source order. -/
theorem mergeFold_names (mdata : Nat → JsVal → Nat) (mclone : PropObj → PropObj)
    (f : Option Factory) (src : MergeSource) (l : List String) (bag : PropertyBag)
    (hnd : l.Nodup)
    (hfresh : ∀ k ∈ l, lookupMember bag k = JsVal.undef ∧ k ∉ bag.propertyNames) :
    (l.foldl (mergeStep mdata mclone f src) bag).propertyNames =
      bag.propertyNames ++ l := by
  induction l generalizing bag with
  | nil => simp
  | cons k rest ih =>
      rw [List.foldl_cons]
      obtain ⟨hu, hreg⟩ := hfresh k (List.mem_cons_self k rest)
      have hstep := mergeStep_registers mdata mclone f src bag k hu hreg
      have hfresh2 : ∀ k2 ∈ rest,
          lookupMember (mergeStep mdata mclone f src bag k) k2 = JsVal.undef ∧
          k2 ∉ (mergeStep mdata mclone f src bag k).propertyNames := by
        intro k2 hk2
        have hkk : k ≠ k2 := by
          rintro rfl
          exact (List.nodup_cons.mp hnd).1 hk2
        refine ⟨?_, ?_⟩
        · rw [mergeStep_lookup_ne _ _ _ _ _ hkk]
          exact (hfresh k2 (List.mem_cons_of_mem _ hk2)).1
        · rw [hstep]
          have h1 := (hfresh k2 (List.mem_cons_of_mem _ hk2)).2
          have hk2k : k2 ≠ k := fun h => hkk h.symm
          simp [h1, hk2k]
      rw [ih _ (List.nodup_cons.mp hnd).2 hfresh2, hstep, List.append_assoc]
      rfl

/-- Evaluating the registered keys of merged raw values yields each key
paired with its raw value. -/
theorem getValueLoop_of_raw (bag : PropertyBag) (t : Nat)
    (kvs : List (String × Nat))
    (h : ∀ kv ∈ kvs, lookupMember bag kv.1 = JsVal.raw kv.2) :
    getValueLoop bag t (kvs.map Prod.fst) =
      kvs.map (fun kv => (kv.1, some kv.2)) := by
  induction kvs with
  | nil => rfl
  | cons hd tl ih =>
      obtain ⟨k, v⟩ := hd
      simp only [List.map_cons, getValueLoop]
      rw [h (k, v) (List.mem_cons_self _ _)]
      exact congrArg (List.cons (k, some v))
        (ih fun kv hkv => h kv (List.mem_cons_of_mem _ hkv))

/-- C5: merging any plain (non-PropertyBag) mapping of raw values into an
empty bag auto-registers every key of the mapping as a member, in key order,
and a subsequent `getValue` returns, for every time, the mapping assigning
each such key its raw merged value.  (JavaScript object keys are distinct,
whence the `Nodup` hypothesis.) -/
theorem merge_plain_into_empty_then_getValue (mdata : Nat → JsVal → Nat)
    (mclone : PropObj → PropObj) (f : Option Factory) (oid : Nat)
    (kvs : List (String × Nat)) (hnd : (kvs.map Prod.fst).Nodup) :
    (PropertyBag.merge mdata mclone f (PropertyBag.init oid)
        (MergeSource.plain (kvs.map (fun kv => (kv.1, JsVal.raw kv.2))))).propertyNames =
      kvs.map Prod.fst ∧
    ∀ t, (PropertyBag.merge mdata mclone f (PropertyBag.init oid)
        (MergeSource.plain (kvs.map (fun kv => (kv.1, JsVal.raw kv.2))))).getValue
        (some t) =
      Except.ok (kvs.map (fun kv => (kv.1, some kv.2))) := by
  set src := MergeSource.plain (kvs.map (fun kv => (kv.1, JsVal.raw kv.2)))
    with hsrc
  have hnames_eq : sourceNames src = kvs.map Prod.fst := by
    simp [hsrc, sourceNames]
  have hslots : ∀ kv ∈ kvs,
      lookupMember (PropertyBag.merge mdata mclone f (PropertyBag.init oid) src)
        kv.1 = JsVal.raw kv.2 := by
    intro kv hkv
    have hsl : sourceLookup src kv.1 = JsVal.raw kv.2 := by
      rw [hsrc]
      show (assocLookup (kvs.map (fun kv => (kv.1, JsVal.raw kv.2))) kv.1).getD
          JsVal.undef = JsVal.raw kv.2
      rw [assocLookup_map_raw kvs kv.1 kv.2 hnd hkv]
      rfl
    have hfill := mergeFold_fill mdata mclone f src (sourceNames src)
      (by rw [hnames_eq]; exact hnd) (PropertyBag.init oid) kv.1
      (by rw [hnames_eq]; exact List.mem_map_of_mem Prod.fst hkv)
      rfl
      (by rw [hsl]; exact fun h => JsVal.noConfusion h)
      (by rw [hsl]; rintro ⟨h1, h2⟩; exact Bool.noConfusion h1)
    exact hfill.trans hsl
  have hnames : (PropertyBag.merge mdata mclone f (PropertyBag.init oid)
      src).propertyNames = kvs.map Prod.fst := by
    have h := mergeFold_names mdata mclone f src (kvs.map Prod.fst)
      (PropertyBag.init oid) hnd
      (fun k _ => ⟨rfl, List.not_mem_nil k⟩)
    show ((sourceNames src).foldl (mergeStep mdata mclone f src)
      (PropertyBag.init oid)).propertyNames = kvs.map Prod.fst
    rw [hnames_eq, h]
    rfl
  refine ⟨hnames, fun t => ?_⟩
  show Except.ok (getValueLoop _ t (PropertyBag.merge mdata mclone f
    (PropertyBag.init oid) src).propertyNames) = _
  rw [hnames, getValueLoop_of_raw _ t kvs hslots]

/-- Witness for C5: the spec's own example — merging the plain mapping
assigning 1 to "a" and 2 to "b" into an empty bag registers ["a", "b"] and
evaluates to that mapping. -/
theorem merge_plain_into_empty_then_getValue_witness :
    (PropertyBag.merge (fun d _ => d) id none (PropertyBag.init 0)
        (MergeSource.plain [("a", JsVal.raw 1), ("b", JsVal.raw 2)])).propertyNames =
      ["a", "b"] ∧
    (PropertyBag.merge (fun d _ => d) id none (PropertyBag.init 0)
        (MergeSource.plain [("a", JsVal.raw 1), ("b", JsVal.raw 2)])).getValue
        (some 3) =
      Except.ok [("a", some 1), ("b", some 2)] := by
  have h := merge_plain_into_empty_then_getValue (fun d _ => d) id none 0
    [("a", 1), ("b", 2)] (by decide)
  exact ⟨h.1, h.2 3⟩

/-- The keys of the `getValue` result are exactly the traversed names, in
order. -/
theorem getValueLoop_map_fst (bag : PropertyBag) (t : Nat) (l : List String) :
    (getValueLoop bag t l).map Prod.fst = l := by
  induction l with
  | nil => rfl
  | cons n rest ih => simp [getValueLoop, ih]

/-- A traversed name whose member is unset contributes an entry with an
undefined value (not an omitted key). -/
theorem getValueLoop_mem_undef (bag : PropertyBag) (t : Nat) (l : List String)
    (n : String) (hn : n ∈ l) (hu : lookupMember bag n = JsVal.undef) :
    (n, (none : Option Nat)) ∈ getValueLoop bag t l := by
  induction l with
  | nil => cases hn
  | cons a rest ih =>
      rcases List.mem_cons.mp hn with h | h
      · subst h
        simp [getValueLoop, hu, propGetValueOrUndefined]
      · simp [getValueLoop]
        exact Or.inr (ih h)

/-- C6: `getValue` fails with `InvalidArgument` when time is missing;
otherwise it returns a mapping with exactly one entry per registered name,
keys in registration order, where an absent/unset member yields an entry
whose value is undefined rather than an omitted key or an error; on a bag
with no registered members the result is the empty mapping, for every
time.  (That each call builds a fresh result object is a JavaScript identity
fact outside a value-level model.) -/
theorem getValue_shape (bag : PropertyBag) (t : Nat) :
    PropertyBag.getValue bag none =
      Except.error (DevErr.invalidArgument "time is required.") ∧
    ∃ r, PropertyBag.getValue bag (some t) = Except.ok r ∧
      r.map Prod.fst = bag.propertyNames ∧
      r.length = bag.propertyNames.length ∧
      (∀ n, n ∈ bag.propertyNames → lookupMember bag n = JsVal.undef →
        (n, (none : Option Nat)) ∈ r) ∧
      (bag.propertyNames = [] → r = []) := by
  refine ⟨rfl, getValueLoop bag t bag.propertyNames, rfl,
    getValueLoop_map_fst bag t bag.propertyNames, ?_,
    fun n hn hu => getValueLoop_mem_undef bag t bag.propertyNames n hn hu,
    fun he => ?_⟩
  · have := congrArg List.length (getValueLoop_map_fst bag t bag.propertyNames)
    simpa using this
  · rw [he]; rfl

/-- Witness for C6: a bag with the single registered-but-unset name "a"
evaluates to a mapping containing the entry ("a", undefined). -/
theorem getValue_shape_witness :
    ∃ r, PropertyBag.getValue
        (addPropertyCore (PropertyBag.init 0) "a" JsVal.undef none) (some 3) =
        Except.ok r ∧
      ("a", (none : Option Nat)) ∈ r := by
  obtain ⟨-, r, hok, -, -, hmem, -⟩ :=
    getValue_shape (addPropertyCore (PropertyBag.init 0) "a" JsVal.undef none) 3
  exact ⟨r, hok, hmem "a" (by decide) rfl⟩

/-- C7: every successful `addProperty` call — including calls that supply an
initial value — raises the bag's change notification exactly once, and that
raise occurs after registration has completed: the step trace is a raise-free
registration prefix followed by one final raise that carries the fully
registered bag (name appended, slot installed, initial value assigned). -/
theorem addProperty_raises_once_after_registration (bag : PropertyBag)
    (n : String) (v : JsVal) (f : Option Factory)
    (h : bag.propertyNames.contains n = false) :
    ∃ b pre,
      addPropertyTrace bag (some n) v f =
        Except.ok (b, pre ++ [RegStep.raisedChange b]) ∧
      countRaises pre = 0 ∧
      countRaises (pre ++ [RegStep.raisedChange b]) = 1 ∧
      PropertyBag.addProperty bag (some n) v f = Except.ok b ∧
      b.propertyNames = bag.propertyNames ++ [n] ∧
      (v ≠ JsVal.undef → lookupMember b n = v) := by
  have h' : n ∉ bag.propertyNames := by simpa using h
  by_cases hv : v = JsVal.undef
  · subst hv
    refine ⟨installSlot bag n f, [RegStep.registered (installSlot bag n f)],
      ?_, rfl, rfl, ?_, rfl, fun hne => absurd rfl hne⟩
    · simp [addPropertyTrace, h']
    · simp [PropertyBag.addProperty, h', addPropertyCore]
  · refine ⟨setMember (installSlot bag n f) n v,
      [RegStep.registered (installSlot bag n f),
       RegStep.assignedInitial (setMember (installSlot bag n f) n v)],
      ?_, rfl, rfl, ?_, rfl, fun _ => setMember_lookup_self _ _ _⟩
    · simp [addPropertyTrace, h', hv]
    · simp [PropertyBag.addProperty, h', addPropertyCore, hv]

/-- Witness for C7: adding "a" with initial raw value 5 to an empty bag
produces a trace whose only raise is the final step, and the slot holds 5. -/
theorem addProperty_raises_once_after_registration_witness :
    ∃ b pre,
      addPropertyTrace (PropertyBag.init 0) (some "a") (JsVal.raw 5) none =
        Except.ok (b, pre ++ [RegStep.raisedChange b]) ∧
      countRaises (pre ++ [RegStep.raisedChange b]) = 1 ∧
      lookupMember b "a" = JsVal.raw 5 := by
  obtain ⟨b, pre, h1, -, h3, -, -, h6⟩ :=
    addProperty_raises_once_after_registration (PropertyBag.init 0) "a"
      (JsVal.raw 5) none rfl
  exact ⟨b, pre, h1, h3, h6 (by decide)⟩

/-- The `isConstant` loop answers true exactly when every traversed member
reports constant. -/
theorem isConstantLoop_iff (bag : PropertyBag) (l : List String) :
    isConstantLoop bag l = true ↔
      ∀ n ∈ l, propIsConstant (lookupMember bag n) = true := by
  induction l with
  | nil => simp [isConstantLoop]
  | cons m rest ih =>
      by_cases hm : propIsConstant (lookupMember bag m) = true
      · simp [isConstantLoop, hm, ih]
      · simp [isConstantLoop, hm]

/-- C8: in every bag state, `isConstant` is true iff every currently
registered member reports constant; a bag with no registered members is
vacuously constant, and one registered member reporting non-constant makes
`isConstant` false. -/
theorem isConstant_iff_all_members (bag : PropertyBag) :
    (bag.isConstant = true ↔
      ∀ n ∈ bag.propertyNames, propIsConstant (lookupMember bag n) = true) ∧
    (bag.propertyNames = [] → bag.isConstant = true) ∧
    (∀ n ∈ bag.propertyNames, propIsConstant (lookupMember bag n) = false →
      bag.isConstant = false) := by
  refine ⟨isConstantLoop_iff bag bag.propertyNames, fun he => ?_, fun n hn hf => ?_⟩
  · show isConstantLoop bag bag.propertyNames = true
    rw [he]
    rfl
  · cases hb : bag.isConstant with
    | false => rfl
    | true =>
        have hall := (isConstantLoop_iff bag bag.propertyNames).mp hb n hn
        rw [hf] at hall
        cases hall

/-- Witness for C8: an empty bag is constant; a bag holding one
time-varying member is not. -/
theorem isConstant_iff_all_members_witness :
    (PropertyBag.init 0).isConstant = true ∧
    (addPropertyCore (PropertyBag.init 0) "a"
        (JsVal.prop ⟨1, false, false, false, EvalSpec.timeV, 0⟩) none).isConstant =
      false :=
  ⟨(isConstant_iff_all_members (PropertyBag.init 0)).2.1 rfl,
   (isConstant_iff_all_members
      (addPropertyCore (PropertyBag.init 0) "a"
        (JsVal.prop ⟨1, false, false, false, EvalSpec.timeV, 0⟩) none)).2.2
      "a" (by decide) rfl⟩

/-- The `propertiesEqual` loop answers true exactly when every traversed
name is registered on `b` and holds an equal value. -/
theorem propertiesEqualLoop_iff (a b : PropertyBag) (l : List String) :
    propertiesEqualLoop a b l = true ↔
      ∀ n ∈ l, n ∈ b.propertyNames ∧ lookupMember a n = lookupMember b n := by
  induction l with
  | nil => simp [propertiesEqualLoop]
  | cons m rest ih =>
      by_cases hm : m ∈ b.propertyNames
      · by_cases he : lookupMember a m = lookupMember b m
        · simp [propertiesEqualLoop, propEquals, hm, he, ih]
        · simp [propertiesEqualLoop, propEquals, hm, he]
      · simp [propertiesEqualLoop, propEquals, hm]

/-- `propertiesEqual` answers true exactly when the name counts agree and
every name of `a` is registered on `b` with an equal held value. -/
theorem propertiesEqual_iff (a b : PropertyBag) :
    propertiesEqual a b = true ↔
      (a.propertyNames.length = b.propertyNames.length ∧
       ∀ n ∈ a.propertyNames, n ∈ b.propertyNames ∧
         lookupMember a n = lookupMember b n) := by
  by_cases hl : a.propertyNames.length = b.propertyNames.length
  · simp [propertiesEqual, hl, propertiesEqualLoop_iff]
  · simp [propertiesEqual, hl]

/-- `equals` against a bag argument answers true exactly when the receiver
is the identical instance or the structural comparison succeeds. -/
theorem equals_iff (a b : PropertyBag) :
    PropertyBag.equals a (EqualsArg.bag b) = true ↔
      (a.oid = b.oid ∨
        (a.propertyNames.length = b.propertyNames.length ∧
         ∀ n ∈ a.propertyNames, n ∈ b.propertyNames ∧
           lookupMember a n = lookupMember b n)) := by
  simp [PropertyBag.equals, propertiesEqual_iff, Bool.or_eq_true,
    decide_eq_true_eq]

/-- C9: `equals(other)` returns true exactly when `other` is the identical
instance, or `other` is a PropertyBag with the same number of registered
names, every name of this bag is registered on `other`, and the values held
under each such name are pairwise equal; the answer does not depend on the
registration order of either bag, and two non-identical bags with different
member counts (e.g. after adding an extra member to one) are never equal. -/
theorem equals_characterisation (a b : PropertyBag) :
    (PropertyBag.equals a (EqualsArg.bag b) = true ↔
      (a.oid = b.oid ∨
        (a.propertyNames.length = b.propertyNames.length ∧
         ∀ n ∈ a.propertyNames, n ∈ b.propertyNames ∧
           lookupMember a n = lookupMember b n))) ∧
    (∀ a2 b2 : PropertyBag, a2.oid = a.oid → b2.oid = b.oid →
      a2.propertyNames.Perm a.propertyNames →
      b2.propertyNames.Perm b.propertyNames →
      (∀ n, lookupMember a2 n = lookupMember a n) →
      (∀ n, lookupMember b2 n = lookupMember b n) →
      PropertyBag.equals a2 (EqualsArg.bag b2) =
        PropertyBag.equals a (EqualsArg.bag b)) ∧
    (a.oid ≠ b.oid → a.propertyNames.length ≠ b.propertyNames.length →
      PropertyBag.equals a (EqualsArg.bag b) = false) := by
  refine ⟨equals_iff a b, ?_, ?_⟩
  · intro a2 b2 ho1 ho2 hp1 hp2 hl1 hl2
    rw [Bool.eq_iff_iff, equals_iff, equals_iff, ho1, ho2,
      hp1.length_eq, hp2.length_eq]
    apply or_congr Iff.rfl
    apply and_congr Iff.rfl
    constructor
    · intro hall n hn
      obtain ⟨h1, h2⟩ := hall n (hp1.mem_iff.mpr hn)
      exact ⟨hp2.mem_iff.mp h1, by rw [← hl1 n, ← hl2 n]; exact h2⟩
    · intro hall n hn
      obtain ⟨h1, h2⟩ := hall n (hp1.mem_iff.mp hn)
      exact ⟨hp2.mem_iff.mpr h1, by rw [hl1 n, hl2 n]; exact h2⟩
  · intro hoid hlen
    cases he : PropertyBag.equals a (EqualsArg.bag b) with
    | false => rfl
    | true =>
        rcases (equals_iff a b).mp he with h | h
        · exact absurd h hoid
        · exact absurd h.1 hlen

/-- Witness for C9: two distinct bags with the same two members registered
in opposite orders are equal; adding the extra member "c" to one makes them
unequal. -/
theorem equals_characterisation_witness :
    PropertyBag.equals
      (addPropertyCore (addPropertyCore (PropertyBag.init 0) "a" (JsVal.raw 1) none)
        "b" (JsVal.raw 2) none)
      (EqualsArg.bag
        (addPropertyCore (addPropertyCore (PropertyBag.init 1) "b" (JsVal.raw 2) none)
          "a" (JsVal.raw 1) none)) = true ∧
    PropertyBag.equals
      (addPropertyCore (addPropertyCore (PropertyBag.init 0) "a" (JsVal.raw 1) none)
        "b" (JsVal.raw 2) none)
      (EqualsArg.bag
        (addPropertyCore
          (addPropertyCore (addPropertyCore (PropertyBag.init 1) "b" (JsVal.raw 2) none)
            "a" (JsVal.raw 1) none)
          "c" (JsVal.raw 3) none)) = false :=
  ⟨(equals_characterisation
      (addPropertyCore (addPropertyCore (PropertyBag.init 0) "a" (JsVal.raw 1) none)
        "b" (JsVal.raw 2) none)
      (addPropertyCore (addPropertyCore (PropertyBag.init 1) "b" (JsVal.raw 2) none)
        "a" (JsVal.raw 1) none)).1.mpr
      (Or.inr ⟨by decide, by decide⟩),
   (equals_characterisation
      (addPropertyCore (addPropertyCore (PropertyBag.init 0) "a" (JsVal.raw 1) none)
        "b" (JsVal.raw 2) none)
      (addPropertyCore
        (addPropertyCore (addPropertyCore (PropertyBag.init 1) "b" (JsVal.raw 2) none)
          "a" (JsVal.raw 1) none)
        "c" (JsVal.raw 3) none)).2.2 (by decide) (by decide)⟩

/-- C10: `equals` is total at the public interface: for every input that is
not a PropertyBag instance — including undefined and null — it returns
false (the model's function is total, so no error is raised) and the
result does not depend on the receiver's member state. -/
theorem equals_nonbag_false (a : PropertyBag) (other : EqualsArg)
    (h : ∀ b : PropertyBag, other ≠ EqualsArg.bag b) :
    PropertyBag.equals a other = false ∧
    (∀ a2 : PropertyBag, PropertyBag.equals a2 other = false) := by
  cases other with
  | bag b2 => exact absurd rfl (h b2)
  | undef => exact ⟨rfl, fun _ => rfl⟩
  | nullv => exact ⟨rfl, fun _ => rfl⟩
  | nonBag w => exact ⟨rfl, fun _ => rfl⟩

/-- Witness for C10: a populated bag compared with undefined and an empty
bag compared with null both answer false. -/
theorem equals_nonbag_false_witness :
    PropertyBag.equals (addPropertyCore (PropertyBag.init 0) "a" (JsVal.raw 1) none)
      EqualsArg.undef = false ∧
    PropertyBag.equals (PropertyBag.init 0) EqualsArg.nullv = false :=
  ⟨(equals_nonbag_false
      (addPropertyCore (PropertyBag.init 0) "a" (JsVal.raw 1) none)
      EqualsArg.undef (fun _ hb => EqualsArg.noConfusion hb)).1,
   (equals_nonbag_false (PropertyBag.init 0) EqualsArg.nullv
      (fun _ hb => EqualsArg.noConfusion hb)).2 (PropertyBag.init 0)⟩

end PropertyBagSpec
